import Mathlib

set_option maxRecDepth 8000

/-!
Shallow embedding of `src/utils/package_puml_generator.py`, a one-shot
PlantUML class-diagram generator: it parses the Python files of a package,
extracts class records (module, name, bases, methods), and renders a
deterministic-format `.puml` document with inheritance edges resolved by
simple class name.

Modelling conventions:
* The Python `ast` is embedded by the two inductives `PyExpr` / `PyStmt`,
  keeping exactly the shapes the tool inspects (`Name`, `Attribute`,
  `Subscript`, `ClassDef`, `FunctionDef`) and collapsing every other shape
  into an `other` constructor carrying its child statements.
* `ast.walk` is breadth-first (it uses a FIFO queue); `walk` below is the
  same level-order traversal, written with a fuel argument (`sizeOf` of the
  queue strictly exceeds the tree depth, so the fuel never runs out).
* A source file is a `PyFile`: its path parts relative to the package
  directory (extension already stripped, as `Path.with_suffix("")` does) and
  `tree : Option (List PyStmt)`, where `none` stands for a file whose
  reading or parsing raised (the `except` branch of `parse_classes`).
* Python strings compare lexicographically by code point; `strLeb` below is
  that comparison on `Char.toNat`, and `List.insertionSort` is a stable
  sort, extensionally equal to Python's stable `sorted`.
* Python truthiness on strings (`if self.module`, `if name`) is modelled by
  emptiness tests.
* `str.replace(".", "_")` and `str.split(".")` have single-character
  needles, so they are modelled character-wise.
* The filesystem is abstracted: `find_python_files` is the external
  discovery collaborator, so `build_puml_for_package` takes the discovered
  file list; the `exists()/is_dir()` check of the package directory is one
  boolean `dirOk` on the `Package` record used by `main`.
-/

/-- Python base-class expressions, as inspected by `_base_name`. -/
inductive PyExpr where
  | name (id : String)
  | attr (value : PyExpr) (a : String)
  | subscript (value : PyExpr)
  | other
deriving Repr

/-- Python statements, as inspected by `parse_classes`: class definitions,
function definitions, and every other statement shape (which may still
carry nested statements that `ast.walk` visits). -/
inductive PyStmt where
  | classDef (name : String) (bases : List PyExpr) (body : List PyStmt)
  | functionDef (name : String) (body : List PyStmt)
  | other (body : List PyStmt)
deriving Repr

/-- One discovered source file: path parts relative to the package
directory with the extension already stripped, and the parse result
(`none` when reading or parsing failed). -/
structure PyFile where
  relParts : List String
  tree : Option (List PyStmt)

/-- The record built per class declaration (Python class `ClassInfo`). -/
structure ClassInfo where
  module : String
  name : String
  bases : List String
  methods : List String
deriving DecidableEq, Repr

/-- Python property `ClassInfo.fqname`. -/
def ClassInfo.fqname (c : ClassInfo) : String :=
  if c.module = "" then c.name else c.module ++ "." ++ c.name

/-- Character-wise model of `str.replace(".", "_")` (single-char needle). -/
def replaceDots (s : String) : String :=
  String.mk (s.data.map (fun ch => if ch = '.' then '_' else ch))

/-- Python property `ClassInfo.alias` (the commented intent in the source
is a PlantUML-safe alias, unique per class in package). `alias` is a Lean
keyword, hence the name `aliasName`. -/
def ClassInfo.aliasName (c : ClassInfo) : String :=
  if c.module = "" then c.name else replaceDots (c.module ++ "_" ++ c.name)

/-- Code-point lexicographic comparison of character lists: the order
Python uses to compare strings. -/
def lexLe : List Char → List Char → Bool
  | [], _ => true
  | _ :: _, [] => false
  | a :: as, b :: bs =>
    if a.toNat < b.toNat then true
    else if b.toNat < a.toNat then false
    else lexLe as bs

/-- Python string `<=` (code-point lexicographic). -/
def strLeb (a b : String) : Bool := lexLe a.data b.data

/-- The ordering relation used to model Python `sorted` on strings. -/
def StrLe (a b : String) : Prop := strLeb a b = true

instance : DecidableRel StrLe := fun a b =>
  inferInstanceAs (Decidable (strLeb a b = true))

/-- Ordering of class records by `name`, modelling
`sorted(classes, key=lambda x: x.name)`. -/
def NameLe (c d : ClassInfo) : Prop := StrLe c.name d.name

instance : DecidableRel NameLe := fun c d =>
  inferInstanceAs (Decidable (StrLe c.name d.name))

/-- The attribute-chain walk of `_base_name`: repeatedly append `cur.attr`
and descend into `cur.value`, returning the collected parts (outermost
first, as Python appends them) and the final non-attribute node. -/
def collectAttrs : PyExpr → List String × PyExpr
  | .attr v a => (a :: (collectAttrs v).1, (collectAttrs v).2)
  | e => ([], e)

/-- Python `_base_name`: rightmost identifier of a base-class expression. -/
def _base_name : PyExpr → Option String
  | .name id => some id
  | .attr v a =>
    let r := collectAttrs (.attr v a)
    let parts :=
      match r.2 with
      | .name id => r.1 ++ [id]
      | _ => r.1
    parts.reverse.getLast?
  | .subscript v => _base_name v
  | .other => none

/-- Direct child statements of a statement, for the `ast.walk` traversal
(class and function bodies; other compound statements' nested suites). -/
def stmtChildren : PyStmt → List PyStmt
  | .classDef _ _ body => body
  | .functionDef _ body => body
  | .other body => body

mutual

/-- Size of one statement, used only as traversal fuel. -/
def stmtSize : PyStmt → Nat
  | .classDef _ _ b => 1 + stmtsSize b
  | .functionDef _ b => 1 + stmtsSize b
  | .other b => 1 + stmtsSize b

/-- Size of a statement list, used only as traversal fuel. -/
def stmtsSize : List PyStmt → Nat
  | [] => 1
  | s :: r => 1 + stmtSize s + stmtsSize r

end

/-- Level-order (FIFO) traversal with fuel; one unit of fuel is spent per
level, and the queue of the next level is the concatenation of all
children, exactly as `ast.walk` extends its deque. -/
def walkAux : Nat → List PyStmt → List PyStmt
  | 0, _ => []
  | _, [] => []
  | n + 1, q => q ++ walkAux n (q.flatMap stmtChildren)

/-- Breadth-first traversal of a module body, as `ast.walk` enumerates it
(the `Module` root itself is never a `ClassDef`, so omitting it changes
nothing). `stmtsSize` strictly exceeds the nesting depth, so the fuel is
always sufficient. -/
def walk (body : List PyStmt) : List PyStmt := walkAux (stmtsSize body) body

/-- The loop body building `bases`: `name = _base_name(b); if name:
bases.append(name)` (Python truthiness drops both `None` and `""`). -/
def resolveBases (bs : List PyExpr) : List String :=
  bs.foldl
    (fun acc b =>
      match _base_name b with
      | some n => if n = "" then acc else acc ++ [n]
      | none => acc)
    []

/-- The per-base resolution as an `Option`, for stating what the
accumulating loop computes. -/
def resolve1 (b : PyExpr) : Option String :=
  match _base_name b with
  | some n => if n = "" then none else some n
  | none => none

/-- The loop collecting method names: direct children of the class body
that are function definitions. -/
def methodsOf (body : List PyStmt) : List String :=
  body.foldl
    (fun acc s =>
      match s with
      | .functionDef n _ => acc ++ [n]
      | _ => acc)
    []

/-- Python `".".join(parts)` and `"\n".join(lines)`. -/
def joinSep (sep : String) : List String → String
  | [] => ""
  | [x] => x
  | x :: xs => x ++ sep ++ joinSep sep xs

/-- Python `parse_classes`: a failed read/parse contributes zero records;
otherwise every `ClassDef` reached by `ast.walk` yields one record, with
`module` the dot-joined relative path. -/
def parse_classes (f : PyFile) : List ClassInfo :=
  match f.tree with
  | none => []
  | some body =>
    let module_str := joinSep "." f.relParts
    (walk body).foldl
      (fun acc node =>
        match node with
        | .classDef name bs bd =>
          acc ++ [⟨module_str, name, resolveBases bs, methodsOf bd⟩]
        | _ => acc)
      []

/-- The concatenation of all files' records (`all_classes` in the source). -/
def all_classes_of (files : List PyFile) : List ClassInfo :=
  files.flatMap parse_classes

/-- `by_simple.get(b, [])`: the records sharing simple name `b`, in
`all_classes` order (the dict's values are appended in that order). -/
def by_simple_get (cs : List ClassInfo) (b : String) : List ClassInfo :=
  cs.filter (fun t => decide (t.name = b))

/-- The sorted module keys of `sorted(by_module.items())`. -/
def module_keys (cs : List ClassInfo) : List String :=
  List.insertionSort StrLe ((cs.map ClassInfo.module).dedup)

/-- The records of one module, sorted by class name (stable, like the
Python `sorted(classes, key=lambda x: x.name)`). -/
def module_classes (cs : List ClassInfo) (m : String) : List ClassInfo :=
  List.insertionSort NameLe (cs.filter (fun c => decide (c.module = m)))

/-- Character-wise model of `module.split(".")`. -/
def splitCharList : List Char → List (List Char)
  | [] => [[]]
  | x :: xs =>
    let r := splitCharList xs
    if x = '.' then [] :: r
    else
      match r with
      | [] => [[x]]
      | h :: t => (x :: h) :: t

/-- Python `module.split(".")`. -/
def splitDots (s : String) : List String :=
  (splitCharList s.data).map (fun cs => String.mk cs)

/-- `module.split(".")[-1] if module else package_name`. -/
def display_module (pkg m : String) : String :=
  if m = "" then pkg else (splitDots m).getLastD ""

/-- One rendered method line `      + {m}()`. -/
def fmt_method (m : String) : String := "      + " ++ m ++ "()"

/-- The method lines of one class block:
`for m in sorted(c.methods)[:12]`. -/
def method_lines (c : ClassInfo) : List String :=
  ((List.insertionSort StrLe c.methods).take 12).map fmt_method

/-- The elision marker, emitted when `len(c.methods) > 12`. -/
def elision_lines (c : ClassInfo) : List String :=
  if 12 < c.methods.length then ["      .. (more) .."] else []

/-- The class block header `    class "{fqname}" as {alias} {`. -/
def class_header (c : ClassInfo) : String :=
  "    class \"" ++ c.fqname ++ "\" as " ++ c.aliasName ++ " \x7b"

/-- The full block rendered for one class. -/
def render_class (c : ClassInfo) : List String :=
  class_header c :: (method_lines c ++ elision_lines c ++ ["    \x7d"])

/-- The nested `package` container rendered for one module. -/
def module_block (pkg : String) (cs : List ClassInfo) (m : String) : List String :=
  ("  package \"" ++ display_module pkg m ++ "\" \x7b")
    :: ((module_classes cs m).flatMap render_class ++ ["  \x7d"])

/-- All module containers, in ascending lexical order of module key. -/
def class_section (pkg : String) (cs : List ClassInfo) : List String :=
  (module_keys cs).flatMap (module_block pkg cs)

/-- The inner two loops of the edge emission, for one subclass record `c`:
for each base identifier, one (subclass, target) pair per name-index hit. -/
def pairs_for (cs : List ClassInfo) (c : ClassInfo) : List (ClassInfo × ClassInfo) :=
  c.bases.flatMap (fun b => (by_simple_get cs b).map (fun t => (c, t)))

/-- The inheritance edges as (subclass, target) record pairs: the triple
loop over `all_classes`, each record's bases, and the name-index hits. -/
def edge_pairs (cs : List ClassInfo) : List (ClassInfo × ClassInfo) :=
  cs.flatMap (pairs_for cs)

/-- One rendered edge `{c.alias} --|> {t.alias}`. -/
def edge_line (p : ClassInfo × ClassInfo) : String :=
  p.1.aliasName ++ " --|> " ++ p.2.aliasName

/-- All rendered edge lines, in emission order. -/
def edge_lines (cs : List ClassInfo) : List String :=
  (edge_pairs cs).map edge_line

/-- Every line of the document, in order. -/
def puml_lines (pkg : String) (cs : List ClassInfo) : List String :=
  ["@startuml", "skinparam classAttributeIconSize 0",
    "package \"" ++ pkg ++ "\" \x7b"]
    ++ class_section pkg cs ++ ["\x7d"] ++ edge_lines cs ++ ["@enduml"]

/-- Python `build_puml_for_package`, after the directory check: the
discovered files are parsed, aggregated and rendered. -/
def build_puml_for_package (pkg : String) (files : List PyFile) :
    String × List ClassInfo :=
  (joinSep "\n" (puml_lines pkg (all_classes_of files)), all_classes_of files)

/-- One package as `main` sees it: its name, whether the package directory
exists and is a directory (the external filesystem check), and the
discovered files. -/
structure Package where
  name : String
  dirOk : Bool
  files : List PyFile

/-- The error message of the `FileNotFoundError` raised by
`build_puml_for_package` (paths abstracted to the package name). -/
def notFoundMsg (pkg : String) : String :=
  "Package directory not found: " ++ pkg

/-- `build_puml_for_package` including its directory check: `raise
FileNotFoundError` becomes `Except.error`. -/
def build_for_package (p : Package) : Except String (String × List ClassInfo) :=
  if p.dirOk then Except.ok (build_puml_for_package p.name p.files)
  else Except.error (notFoundMsg p.name)

/-- The status line `main` prints for one package (quoting and the output
directory path are abstracted away). -/
def status_line (p : Package) : String :=
  match build_for_package p with
  | .ok (_, cs) =>
    "Generated " ++ p.name ++ ".puml with " ++ toString cs.length ++ " classes"
  | .error e => "Failed to generate for " ++ p.name ++ ": " ++ e

/-- Python `main`: each package is processed inside its own `try`, so one
package's failure never stops the loop (`main` is reserved in Lean, hence
the name `main_run`). -/
def main_run (packages : List Package) : List String :=
  packages.map status_line

/-- Concrete input: file `a.py` containing `class A(B): pass`. -/
def ex1A : PyFile := ⟨["a"], some [.classDef "A" [.name "B"] []]⟩

/-- Concrete input: file `b.py` containing `class B(A): pass`. -/
def ex1B : PyFile := ⟨["b"], some [.classDef "B" [.name "A"] []]⟩

/-- Concrete input: file `m.py` declaring `class C` twice at top level
(legal Python; the second declaration rebinds the name). -/
def dupClassFile : PyFile :=
  ⟨["m"], some [.classDef "C" [] [], .classDef "C" [] []]⟩

/-- Concrete input: file `m.py` with `class A: pass` and
`class C(A, x.A): pass` — two distinct base expressions that both resolve
to the identifier `A`. -/
def dupBaseFile : PyFile :=
  ⟨["m"], some [.classDef "A" [] [],
    .classDef "C" [.name "A", .attr (.name "x") "A"] []]⟩

/-- Concrete class record with 13 methods (given out of order). -/
def wideClass : ClassInfo :=
  ⟨"m", "C", [],
    ["m05", "m03", "m01", "m13", "m02", "m04", "m06", "m07", "m08", "m09",
      "m10", "m11", "m12"]⟩

/-- Concrete input: file `m.py` with `class A: pass` and
`class C(A): pass`. -/
def inhFile : PyFile :=
  ⟨["m"], some [.classDef "A" [] [], .classDef "C" [.name "A"] []]⟩

/-- The record extracted for `class A` of `inhFile`. -/
def recA : ClassInfo := ⟨"m", "A", [], []⟩

/-- The record extracted for `class C(A)` of `inhFile`. -/
def recC : ClassInfo := ⟨"m", "C", ["A"], []⟩

/-- Concrete input: file `m.py` with `class C(X): pass` and no class
named `X` anywhere in the run. -/
def orphanFile : PyFile := ⟨["m"], some [.classDef "C" [.name "X"] []]⟩

/-- Concrete input: file `m.py` with `class B(B): pass` (a class listing
its own name as a base; the name `B` resolves through the name index to
the record itself). -/
def selfFile : PyFile := ⟨["m"], some [.classDef "B" [.name "B"] []]⟩

/-- The record extracted for `class B(B)` of `selfFile`. -/
def recB : ClassInfo := ⟨"m", "B", ["B"], []⟩

/-- Concrete package whose directory is missing. -/
def badPkg : Package := ⟨"ghost", false, []⟩

/-- Concrete package whose directory exists (no files discovered). -/
def goodPkg : Package := ⟨"ok", true, []⟩

/-! Order-theoretic facts about the code-point comparison, needed to show
that Python's `sorted` produces a canonical result on duplicate-free key
lists. -/

theorem lexLe_total : ∀ x y : List Char, lexLe x y = true ∨ lexLe y x = true := by
  intro x
  induction x with
  | nil => intro y; left; rfl
  | cons a as ih =>
    intro y
    cases y with
    | nil => right; rfl
    | cons b bs =>
      rcases Nat.lt_trichotomy a.toNat b.toNat with h | h | h
      · left; simp [lexLe, h]
      · rcases ih bs with hh | hh
        · left; simp [lexLe, h, hh]
        · right; simp [lexLe, h.symm, hh]
      · right; simp [lexLe, h]

theorem lexLe_trans :
    ∀ x y z : List Char, lexLe x y = true → lexLe y z = true → lexLe x z = true := by
  intro x
  induction x with
  | nil => intro y z _ _; rfl
  | cons a as ih =>
    intro y z hxy hyz
    cases y with
    | nil => simp [lexLe] at hxy
    | cons b bs =>
      cases z with
      | nil => simp [lexLe] at hyz
      | cons c cs =>
        rcases Nat.lt_trichotomy a.toNat b.toNat with hab | hab | hab
        · rcases Nat.lt_trichotomy b.toNat c.toNat with hbc | hbc | hbc
          · simp [lexLe, Nat.lt_trans hab hbc]
          · have : a.toNat < c.toNat := by omega
            simp [lexLe, this]
          · simp [lexLe, Nat.lt_asymm hbc, hbc] at hyz
        · rcases Nat.lt_trichotomy b.toNat c.toNat with hbc | hbc | hbc
          · have : a.toNat < c.toNat := by omega
            simp [lexLe, this]
          · have h1 : lexLe as bs = true := by simpa [lexLe, hab] using hxy
            have h2 : lexLe bs cs = true := by simpa [lexLe, hbc] using hyz
            have hac : a.toNat = c.toNat := by omega
            simp [lexLe, hac, ih bs cs h1 h2]
          · simp [lexLe, Nat.lt_asymm hbc, hbc] at hyz
        · simp [lexLe, Nat.lt_asymm hab, hab] at hxy

theorem lexLe_antisymm :
    ∀ x y : List Char, lexLe x y = true → lexLe y x = true → x = y := by
  intro x
  induction x with
  | nil =>
    intro y hxy hyx
    cases y with
    | nil => rfl
    | cons b bs => simp [lexLe] at hyx
  | cons a as ih =>
    intro y hxy hyx
    cases y with
    | nil => simp [lexLe] at hxy
    | cons b bs =>
      rcases Nat.lt_trichotomy a.toNat b.toNat with h | h | h
      · simp [lexLe, Nat.lt_asymm h, h] at hyx
      · have hv : a.val.toNat = b.val.toNat := h
        have hab : a = b := Char.ext (UInt32.toNat.inj hv)
        subst hab
        have h1 : lexLe as bs = true := by simpa [lexLe] using hxy
        have h2 : lexLe bs as = true := by simpa [lexLe] using hyx
        rw [ih bs h1 h2]
      · simp [lexLe, Nat.lt_asymm h, h] at hxy

theorem strLe_total (a b : String) : StrLe a b ∨ StrLe b a :=
  lexLe_total a.data b.data

theorem strLe_trans {a b c : String} (h1 : StrLe a b) (h2 : StrLe b c) :
    StrLe a c :=
  lexLe_trans a.data b.data c.data h1 h2

theorem strLe_antisymm {a b : String} (h1 : StrLe a b) (h2 : StrLe b a) :
    a = b := by
  have hd := lexLe_antisymm a.data b.data h1 h2
  cases a with
  | mk da =>
    cases b with
    | mk db => exact congrArg String.mk hd

/-! General list lemmas about `flatMap`, used to reason about the nested
emission loops. -/

theorem filter_flatMap {α β : Type} (l : List α) (f : α → List β) (p : β → Bool) :
    (l.flatMap f).filter p = l.flatMap (fun a => (f a).filter p) := by
  induction l with
  | nil => rfl
  | cons x xs ih => simp [List.flatMap_cons, List.filter_append, ih]

theorem flatMap_eq_nil_of {α β : Type} (l : List α) (f : α → List β)
    (h : ∀ a ∈ l, f a = []) : l.flatMap f = [] := by
  induction l with
  | nil => rfl
  | cons x xs ih =>
    simp [List.flatMap_cons, h x (List.mem_cons_self x xs),
      ih (fun a ha => h a (List.mem_cons_of_mem x ha))]

theorem flatMap_count_one {α β : Type} [DecidableEq α] (l : List α) (a : α)
    (f : α → List β) (h1 : l.count a = 1) (h2 : ∀ x ∈ l, x ≠ a → f x = []) :
    l.flatMap f = f a := by
  induction l with
  | nil => simp at h1
  | cons x xs ih =>
    by_cases hx : x = a
    · subst hx
      have h0 : xs.count x = 0 := by
        simp [List.count_cons] at h1
        omega
      have hnil : xs.flatMap f = [] := by
        apply flatMap_eq_nil_of
        intro y hy
        by_cases hya : y = x
        · exact absurd (hya ▸ hy) (List.count_eq_zero.mp h0)
        · exact h2 y (List.mem_cons_of_mem x hy) hya
      simp [List.flatMap_cons, hnil]
    · have hcnt : xs.count a = 1 := by
        simp [List.count_cons, hx] at h1
        omega
      have hrec := ih hcnt (fun y hy hya => h2 y (List.mem_cons_of_mem x hy) hya)
      simp [List.flatMap_cons, h2 x (List.mem_cons_self x xs) hx, hrec]

/-! Facts about the accumulating loops of `parse_classes`. -/

theorem foldl_resolve (bs : List PyExpr) (acc : List String) :
    bs.foldl
        (fun acc b =>
          match _base_name b with
          | some n => if n = "" then acc else acc ++ [n]
          | none => acc)
        acc
      = acc ++ bs.filterMap resolve1 := by
  induction bs generalizing acc with
  | nil => simp
  | cons b bs ih =>
    simp only [List.foldl_cons, List.filterMap_cons]
    cases h : _base_name b with
    | none => simp [resolve1, h, ih]
    | some n =>
      by_cases hn : n = ""
      · simp [resolve1, h, hn, ih]
      · simp [resolve1, h, hn, ih (acc ++ [n]), List.append_assoc]

theorem resolveBases_eq (bs : List PyExpr) :
    resolveBases bs = bs.filterMap resolve1 := by
  simpa using foldl_resolve bs []

theorem count_filterMap_resolve (bs : List PyExpr) (x : String) :
    (bs.filterMap resolve1).count x
      = bs.countP (fun b => decide (resolve1 b = some x)) := by
  induction bs with
  | nil => rfl
  | cons b bs ih =>
    cases h : resolve1 b with
    | none => simp [List.filterMap_cons, h, List.countP_cons, ih]
    | some n =>
      by_cases hx : n = x
      · subst hx
        simp [List.filterMap_cons, h, List.count_cons, List.countP_cons, ih]
      · simp [List.filterMap_cons, h, List.count_cons, List.countP_cons, ih, hx]

/-! Shape facts about the emitted edge pairs. -/

theorem pairs_for_fst (cs : List ClassInfo) (c' : ClassInfo)
    (p : ClassInfo × ClassInfo) (hp : p ∈ pairs_for cs c') : p.1 = c' := by
  rw [pairs_for] at hp
  rcases List.mem_flatMap.mp hp with ⟨b', _, hp2⟩
  rcases List.mem_map.mp hp2 with ⟨t, _, rfl⟩
  rfl

theorem snd_mem_of_mem_edge_pairs (cs : List ClassInfo)
    (p : ClassInfo × ClassInfo) (hp : p ∈ edge_pairs cs) : p.2 ∈ cs := by
  rw [edge_pairs] at hp
  rcases List.mem_flatMap.mp hp with ⟨c, _, hp2⟩
  rw [pairs_for] at hp2
  rcases List.mem_flatMap.mp hp2 with ⟨b', _, hp3⟩
  rcases List.mem_map.mp hp3 with ⟨t, ht, rfl⟩
  exact List.mem_of_mem_filter ht

/-- C9: a file whose reading or parsing failed (`tree = none`, the
`except` branch) contributes the empty record list — the function is
total, so no exception escapes — and the surrounding package aggregation
is exactly the aggregation of the remaining files. -/
theorem failed_parse_contributes_nothing (parts : List String)
    (fs1 fs2 : List PyFile) :
    parse_classes ⟨parts, none⟩ = [] ∧
    all_classes_of (fs1 ++ ⟨parts, none⟩ :: fs2)
      = all_classes_of fs1 ++ all_classes_of fs2 := by
  constructor
  · rfl
  · simp [all_classes_of, List.flatMap_append, List.flatMap_cons]
    rfl

/-- C2 (code bug): the source comments that the alias is unique per class
in a package, and the spec states the same invariant, but one module
declaring `class C` twice at top level (legal Python, enumerated twice by
the full-tree walk) yields two records with the identical alias `m_C`. -/
theorem alias_collision_in_one_run :
    ((parse_classes dupClassFile).map ClassInfo.aliasName) = ["m_C", "m_C"] ∧
    ¬ ((parse_classes dupClassFile).map ClassInfo.aliasName).Nodup := by
  decide

/-- C3 (counterexample): `class C(A, x.A)` declares two base expressions
that both resolve to the identifier `A`, and the extracted record keeps
both occurrences, so its `bases` sequence does contain a duplicate. -/
theorem bases_keep_duplicates_cex :
    ((parse_classes dupBaseFile).map ClassInfo.bases) = [[], ["A", "A"]] ∧
    ¬ (∀ l ∈ (parse_classes dupBaseFile).map ClassInfo.bases, l.Nodup) := by
  decide

/-- C3 (amended): the `bases` field of an extracted record is the ordered
sequence of resolvable base identifiers with multiplicity preserved —
unresolvable expressions (and the falsy empty identifier) contribute
nothing, but duplicates are NOT omitted: each identifier occurs exactly as
often as base expressions resolving to it. -/
theorem bases_resolution (m n : String) (bs : List PyExpr) (bd : List PyStmt) :
    (ClassInfo.mk m n (resolveBases bs) (methodsOf bd)).bases
      = bs.filterMap resolve1 ∧
    ∀ x : String,
      (resolveBases bs).count x
        = bs.countP (fun b => decide (resolve1 b = some x)) := by
  constructor
  · exact resolveBases_eq bs
  · intro x
    rw [resolveBases_eq]
    exact count_filterMap_resolve bs x

/-- C5: the name resolver returns the identifier itself for a bare name,
the rightmost (outermost) attribute segment for a dotted chain, the
recursive resolution of the value part for a subscripted expression, and
nothing for every other shape. -/
theorem base_name_resolution :
    (∀ id : String, _base_name (.name id) = some id) ∧
    (∀ (v : PyExpr) (a : String), _base_name (.attr v a) = some a) ∧
    (∀ v : PyExpr, _base_name (.subscript v) = _base_name v) ∧
    _base_name .other = none := by
  refine ⟨fun id => rfl, fun v a => ?_, fun v => rfl, rfl⟩
  cases hcv : (collectAttrs v).2 with
  | name id =>
    simp only [_base_name, collectAttrs, hcv]
    rw [List.getLast?_reverse]
    rfl
  | attr w b => simp [_base_name, collectAttrs, hcv, List.getLast?_reverse]
  | subscript w => simp [_base_name, collectAttrs, hcv, List.getLast?_reverse]
  | other => simp [_base_name, collectAttrs, hcv, List.getLast?_reverse]

/-- C4: the rendered block of a class is its header, then the method
lines, then the elision marker (if any), then the closing brace; there are
exactly `min 12 n` method lines for `n` declared methods — so never 13 or
more — the marker appears exactly when `n > 12`, in which case exactly 12
method lines precede it; when `n ≤ 12` every method is rendered and no
marker appears; and the rendered names are the lexically smallest 12, in
ascending order. -/
theorem render_truncates_methods (c : ClassInfo) :
    render_class c = class_header c ::
      (method_lines c ++ elision_lines c ++ ["    \x7d"]) ∧
    (method_lines c).length = min 12 c.methods.length ∧
    (12 < c.methods.length → (method_lines c).length = 12 ∧
      elision_lines c = ["      .. (more) .."]) ∧
    (c.methods.length ≤ 12 →
      method_lines c = (List.insertionSort StrLe c.methods).map fmt_method ∧
      elision_lines c = []) ∧
    ((List.insertionSort StrLe c.methods).take 12).Sorted StrLe ∧
    (∀ x ∈ (List.insertionSort StrLe c.methods).take 12,
      ∀ y ∈ (List.insertionSort StrLe c.methods).drop 12, StrLe x y) := by
  haveI : IsTotal String StrLe := ⟨strLe_total⟩
  haveI : IsTrans String StrLe := ⟨fun _ _ _ => strLe_trans⟩
  have hlen : (List.insertionSort StrLe c.methods).length = c.methods.length :=
    (List.perm_insertionSort StrLe c.methods).length_eq
  have hsorted : (List.insertionSort StrLe c.methods).Sorted StrLe :=
    List.sorted_insertionSort StrLe c.methods
  refine ⟨rfl, ?_, ?_, ?_, ?_, ?_⟩
  · simp [method_lines, List.length_take, hlen]
  · intro h
    refine ⟨?_, ?_⟩
    · simp [method_lines, List.length_take, hlen, Nat.min_eq_left (Nat.le_of_lt h)]
    · simp [elision_lines, h]
  · intro h
    have h' : (List.insertionSort StrLe c.methods).length ≤ 12 := by
      rw [hlen]; exact h
    refine ⟨?_, ?_⟩
    · simp [method_lines, List.take_of_length_le h']
    · simp [elision_lines, Nat.not_lt.mpr h]
  · exact hsorted.sublist (List.take_sublist _ _)
  · intro x hx y hy
    have hsplit := List.take_append_drop 12 (List.insertionSort StrLe c.methods)
    have hp : ((List.insertionSort StrLe c.methods).take 12 ++
        (List.insertionSort StrLe c.methods).drop 12).Pairwise StrLe := by
      rw [hsplit]; exact hsorted
    exact (List.pairwise_append.mp hp).2.2 x hx y hy

/-- Witness for C4 at a concrete class with 13 methods. -/
theorem render_truncates_methods_witness :
    (method_lines wideClass).length = 12 ∧
    elision_lines wideClass = ["      .. (more) .."] :=
  (render_truncates_methods wideClass).2.2.1 (by decide)

/-- C7: a base identifier whose simple name matches zero records produces
no edge — no emitted pair targets a record with that name, so the filter
for that name over the emitted pairs is empty — and the (total) rendering
completes without error. -/
theorem no_match_no_edge (cs : List ClassInfo) (b : String)
    (h : ∀ u ∈ cs, u.name ≠ b) :
    by_simple_get cs b = [] ∧
    (∀ p ∈ edge_pairs cs, p.2.name ≠ b) ∧
    (edge_pairs cs).filter (fun p => decide (p.2.name = b)) = [] := by
  refine ⟨?_, ?_, ?_⟩
  · apply List.filter_eq_nil_iff.mpr
    intro u hu
    simp [h u hu]
  · intro p hp
    exact h p.2 (snd_mem_of_mem_edge_pairs cs p hp)
  · apply List.filter_eq_nil_iff.mpr
    intro p hp
    simp [h p.2 (snd_mem_of_mem_edge_pairs cs p hp)]

/-- Witness for C7: a run with only `class C(X)` emits nothing for `X`. -/
theorem no_match_no_edge_witness :
    by_simple_get (parse_classes orphanFile) "X" = [] ∧
    (∀ p ∈ edge_pairs (parse_classes orphanFile), p.2.name ≠ "X") ∧
    (edge_pairs (parse_classes orphanFile)).filter
      (fun p => decide (p.2.name = "X")) = [] :=
  no_match_no_edge (parse_classes orphanFile) "X" (by decide)

/-- C10: a record listing its own simple name among its bases is found by
the name-index lookup for that base (the index is built over all records,
with no self-exclusion), so the emitted pairs include the self-pair and
the document contains the self-loop edge line. -/
theorem self_base_self_loop (cs : List ClassInfo) (c : ClassInfo)
    (hc : c ∈ cs) (hb : c.name ∈ c.bases) :
    c ∈ by_simple_get cs c.name ∧ (c, c) ∈ edge_pairs cs ∧
    edge_line (c, c) ∈ edge_lines cs := by
  have h1 : c ∈ by_simple_get cs c.name := by
    rw [by_simple_get]
    exact List.mem_filter.mpr ⟨hc, by simp⟩
  have h2 : (c, c) ∈ edge_pairs cs := by
    rw [edge_pairs]
    apply List.mem_flatMap.mpr
    refine ⟨c, hc, ?_⟩
    rw [pairs_for]
    apply List.mem_flatMap.mpr
    exact ⟨c.name, hb, List.mem_map_of_mem _ h1⟩
  exact ⟨h1, h2, List.mem_map_of_mem edge_line h2⟩

/-- Witness for C10: `class B(B)` yields the self-loop `m_B --|> m_B`. -/
theorem self_base_self_loop_witness :
    recB ∈ by_simple_get (parse_classes selfFile) recB.name ∧
    (recB, recB) ∈ edge_pairs (parse_classes selfFile) ∧
    edge_line (recB, recB) ∈ edge_lines (parse_classes selfFile) :=
  self_base_self_loop (parse_classes selfFile) recB (by decide) (by decide)

/-- C8: building a package fails with the NotFound error exactly when the
package directory check fails; with the check passing, the build returns
normally whatever the files contain (even when none parses); and in a
batch the packages before and after any given package are processed
independently of it. -/
theorem package_failure_isolated (p : Package) (ps1 ps2 : List Package) :
    (build_for_package p = Except.error (notFoundMsg p.name) ↔
      p.dirOk = false) ∧
    (p.dirOk = true →
      build_for_package p = Except.ok (build_puml_for_package p.name p.files)) ∧
    main_run (ps1 ++ p :: ps2) = main_run ps1 ++ status_line p :: main_run ps2 := by
  refine ⟨⟨?_, ?_⟩, ?_, ?_⟩
  · intro h
    cases hd : p.dirOk with
    | false => rfl
    | true => simp [build_for_package, hd] at h
  · intro h
    simp [build_for_package, h]
  · intro h
    simp [build_for_package, h]
  · simp [main_run]

/-- Witness for C8: a missing directory yields the NotFound error; an
existing directory yields a normal build result. -/
theorem package_failure_isolated_witness :
    build_for_package badPkg = Except.error (notFoundMsg badPkg.name) ∧
    build_for_package goodPkg
      = Except.ok (build_puml_for_package goodPkg.name goodPkg.files) :=
  ⟨(package_failure_isolated badPkg [] []).1.mpr (by decide),
   (package_failure_isolated goodPkg [] []).2.1 (by decide)⟩

/-- C6 (counterexample): in the run over `dupBaseFile`, the base name `A`
of `class C(A, x.A)` matches exactly one other record (`class A`), yet the
document contains the edge `m_C --|> m_A` twice, because the (class, base)
pair is processed once per base-expression occurrence. -/
theorem duplicate_base_two_edges :
    by_simple_get (parse_classes dupBaseFile) "A" = [recA] ∧
    (edge_lines (parse_classes dupBaseFile)).count "m_C --|> m_A" = 2 := by
  decide

/-- C6 (amended): if a base identifier occurs exactly once in a record's
`bases` sequence and exactly one record of the run carries that simple
name, then exactly one pair is emitted for that (class, base) pair, and it
is rendered as the directed edge from the declaring record's alias to the
matching record's alias. -/
theorem unique_match_unique_edge (cs : List ClassInfo) (c t : ClassInfo)
    (b : String) (hc : cs.count c = 1) (hb : c.bases.count b = 1)
    (ht : by_simple_get cs b = [t]) :
    (edge_pairs cs).filter (fun p => decide (p.1 = c ∧ p.2.name = b))
      = [(c, t)] ∧
    edge_line (c, t) ∈ edge_lines cs := by
  have hfe : (edge_pairs cs).filter
      (fun p => decide (p.1 = c ∧ p.2.name = b)) = [(c, t)] := by
    rw [edge_pairs, filter_flatMap]
    have step3 : (pairs_for cs c).filter
        (fun p => decide (p.1 = c ∧ p.2.name = b)) = [(c, t)] := by
      rw [pairs_for, filter_flatMap]
      have hbmem : b ∈ c.bases := List.count_pos_iff.mp (by omega)
      have inner : ∀ b' ∈ c.bases,
          ((by_simple_get cs b').map (fun t' => ((c : ClassInfo), t'))).filter
            (fun p => decide (p.1 = c ∧ p.2.name = b))
            = if b' = b then [(c, t)] else [] := by
        intro b' _
        rw [List.filter_map]
        have hpred : ((fun p : ClassInfo × ClassInfo =>
            decide (p.1 = c ∧ p.2.name = b)) ∘ (fun t' => (c, t')))
            = fun t' => decide (t'.name = b) := by
          funext t'
          simp [Function.comp]
        rw [hpred]
        by_cases hbb : b' = b
        · subst hbb
          have hself : (by_simple_get cs b').filter
              (fun t' => decide (t'.name = b')) = by_simple_get cs b' := by
            apply List.filter_eq_self.mpr
            intro u hu
            have := (List.mem_filter.mp hu).2
            simpa using this
          rw [hself, ht]
          simp
        · have hnil : (by_simple_get cs b').filter
              (fun t' => decide (t'.name = b)) = [] := by
            apply List.filter_eq_nil_iff.mpr
            intro u hu
            have h1 := (List.mem_filter.mp hu).2
            simp at h1 ⊢
            intro h2
            exact hbb (by rw [← h1, h2])
          rw [hnil]
          simp [hbb]
      refine (flatMap_count_one c.bases b _ hb ?_).trans ?_
      · intro b' hb' hne
        rw [inner b' hb']
        simp [hne]
      · rw [inner b hbmem]
        simp
    refine (flatMap_count_one cs c _ hc ?_).trans step3
    intro c' hc' hne
    apply List.filter_eq_nil_iff.mpr
    intro p hp
    have := pairs_for_fst cs c' p hp
    simp [this, hne]
  refine ⟨hfe, ?_⟩
  have hpmem : (c, t) ∈ edge_pairs cs := by
    have hmemf : (c, t) ∈ (edge_pairs cs).filter
        (fun p => decide (p.1 = c ∧ p.2.name = b)) := by
      rw [hfe]
      exact List.mem_singleton_self (c, t)
    exact List.mem_of_mem_filter hmemf
  exact List.mem_map_of_mem edge_line hpmem

/-- Witness for C6 (amended) at the run over `inhFile`. -/
theorem unique_match_unique_edge_witness :
    (edge_pairs (parse_classes inhFile)).filter
      (fun p => decide (p.1 = recC ∧ p.2.name = "A")) = [(recC, recA)] ∧
    edge_line (recC, recA) ∈ edge_lines (parse_classes inhFile) :=
  unique_match_unique_edge (parse_classes inhFile) recC recA "A"
    (by decide) (by decide) (by decide)

/-- C1 (counterexample): the same two-file set rendered in its two
discovery orders produces two different documents — the class blocks
coincide, but the inheritance-edge lines are emitted in `all_classes`
order, which follows the discovery order. -/
theorem build_output_depends_on_discovery_order :
    (build_puml_for_package "p" [ex1A, ex1B]).1
      ≠ (build_puml_for_package "p" [ex1B, ex1A]).1 := by
  decide

/-- C1 (amended): over two discovery orders of the same file set, the
pipeline produces the same multiset of class records and documents that
are line-level permutations of each other (header, sorted class blocks
and the edge multiset are preserved); byte-identity does not hold in
general because the inheritance-edge lines follow discovery order. -/
theorem build_lines_perm_of_discovery_perm (pkg : String)
    (l1 l2 : List PyFile) (h : l1.Perm l2) :
    ((build_puml_for_package pkg l1).2).Perm
      ((build_puml_for_package pkg l2).2) ∧
    (puml_lines pkg (all_classes_of l1)).Perm
      (puml_lines pkg (all_classes_of l2)) := by
  have hcs : (all_classes_of l1).Perm (all_classes_of l2) :=
    h.flatMap_right parse_classes
  constructor
  · simpa [build_puml_for_package] using hcs
  · haveI : IsTotal String StrLe := ⟨strLe_total⟩
    haveI : IsTrans String StrLe := ⟨fun _ _ _ => strLe_trans⟩
    haveI : IsAntisymm String StrLe := ⟨fun _ _ => strLe_antisymm⟩
    have hkeys : module_keys (all_classes_of l1)
        = module_keys (all_classes_of l2) := by
      rw [module_keys, module_keys]
      exact List.eq_of_perm_of_sorted
        ((List.perm_insertionSort _ _).trans
          (((hcs.map _).dedup).trans (List.perm_insertionSort _ _).symm))
        (List.sorted_insertionSort _ _) (List.sorted_insertionSort _ _)
    have hblock : ∀ m, (module_block pkg (all_classes_of l1) m).Perm
        (module_block pkg (all_classes_of l2) m) := by
      intro m
      have hmc : (module_classes (all_classes_of l1) m).Perm
          (module_classes (all_classes_of l2) m) :=
        (List.perm_insertionSort _ _).trans
          ((hcs.filter _).trans (List.perm_insertionSort _ _).symm)
      rw [module_block, module_block]
      exact ((hmc.flatMap_right render_class).append_right _).cons _
    have hsection : (class_section pkg (all_classes_of l1)).Perm
        (class_section pkg (all_classes_of l2)) := by
      rw [class_section, class_section, hkeys]
      exact List.Perm.flatMap_left _ (fun m _ => hblock m)
    have hpairs : (edge_pairs (all_classes_of l1)).Perm
        (edge_pairs (all_classes_of l2)) := by
      rw [edge_pairs, edge_pairs]
      refine (List.Perm.flatMap_left _ ?_).trans (hcs.flatMap_right _)
      intro c _
      rw [pairs_for, pairs_for]
      exact List.Perm.flatMap_left _ (fun b _ => (hcs.filter _).map _)
    have hedges : (edge_lines (all_classes_of l1)).Perm
        (edge_lines (all_classes_of l2)) := hpairs.map _
    rw [puml_lines, puml_lines]
    exact ((((List.Perm.refl _).append hsection).append
      (List.Perm.refl _)).append hedges).append (List.Perm.refl _)

/-- Witness for C1 (amended) at the concrete two-file set, swapped. -/
theorem build_lines_perm_of_discovery_perm_witness :
    (puml_lines "p" (all_classes_of [ex1A, ex1B])).Perm
      (puml_lines "p" (all_classes_of [ex1B, ex1A])) :=
  (build_lines_perm_of_discovery_perm "p" [ex1A, ex1B] [ex1B, ex1A]
    (List.Perm.swap ex1B ex1A [])).2
